import Mathlib

/-!
Shallow embedding of `src/main.rs` of sync-ostree-to-containers.

Strings are modelled as lists of characters (`Str`); the external
collaborators (the `ostree remote refs` ref-source and the
`ostree pull` fetch-sink) are modelled by their observable outcomes: a
`ProcOutput` for the ref-source run and a status function for the pulls.
-/

abbrev Str := List Char

/-- Rust `str::split(sep)` for a one-character separator: the chunks
between occurrences of `sep`, in order.  On the empty string it yields
one empty chunk, exactly as in Rust. -/
def splitChar (sep : Char) : Str → List Str
  | [] => [[]]
  | c :: rest =>
    if c = sep then [] :: splitChar sep rest
    else
      match splitChar sep rest with
      | [] => [[c]]
      | s :: ss => (c :: s) :: ss

/-- Rejoin chunks with `sep` between them; the left inverse of
`splitChar sep`. -/
def joinSeg (sep : Char) : List Str → Str
  | [] => []
  | [s] => s
  | s :: ss => s ++ sep :: joinSeg sep ss

/-- The per-candidate predicate inside `glob_match_refs` in
`src/main.rs`: the candidate `v` splits into as many `/`-separated
segments as `parts` has, and at every position the pattern segment is
the one-character wildcard `*` or equals the candidate segment. -/
def ref_matches (parts : List Str) (v : Str) : Bool :=
  let v_parts := splitChar '/' v
  parts.length == v_parts.length &&
    (v_parts.zip parts).all fun vg => vg.2 == ['*'] || vg.1 == vg.2

/-- `glob_match_refs` from `src/main.rs`: keep the candidate refs whose
`/`-segments match the pattern segment-wise. -/
def glob_match_refs (all_refs : List Str) (glob : Str) : List Str :=
  let parts := splitChar '/' glob
  all_refs.filter (ref_matches parts)

/-- Rust `str::split_once(sep)`: the parts strictly before and strictly
after the first occurrence of `sep`, or `none` when `sep` is absent. -/
def splitOnce (sep : Char) : Str → Option (Str × Str)
  | [] => none
  | c :: rest =>
    if c = sep then some ([], rest)
    else
      match splitOnce sep rest with
      | none => none
      | some ab => some (c :: ab.1, ab.2)

/-- The characters after the first occurrence of `sep` (the empty
string when `sep` is absent): the "everything after the first colon"
of the spec, the part before it discarded. -/
def afterFirst (sep : Char) : Str → Str
  | [] => []
  | c :: rest => if c = sep then rest else afterFirst sep rest

/-- Rust `str::split_inclusive('\n')`: chunks each ending with the
newline that terminated them, the last chunk possibly without one; the
empty string has no chunks. -/
def splitInclusiveNl : Str → List Str
  | [] => []
  | c :: rest =>
    if c = '\n' then ['\n'] :: splitInclusiveNl rest
    else
      match splitInclusiveNl rest with
      | [] => [[c]]
      | s :: ss => (c :: s) :: ss

/-- The per-chunk trimming done by Rust `str::lines`: strip one trailing
newline and, when one directly precedes it, the carriage return; a
chunk not ending in a newline is kept whole. -/
def lineMap (l : Str) : Str :=
  if l.getLast? = some '\n' then
    if l.dropLast.getLast? = some '\r' then l.dropLast.dropLast else l.dropLast
  else l

/-- Rust `str::lines` as used by `remote_list` in `src/main.rs`. -/
def rustLines (s : Str) : List Str := (splitInclusiveNl s).map lineMap

/-- Observed outcome of running the external ref-source command
(`ostree remote refs`): whether its status was success, and its stdout
decoded as text (`none` when the bytes are not decodable). -/
structure ProcOutput where
  success : Bool
  stdout : Option Str
deriving DecidableEq

/-- Error taxonomy of the tool: the ref-source collaborator failed
(non-success status, undecodable output, or a malformed line), or a
fetch-sink pull reported a failing status. -/
inductive Err where
  | collaboratorError (msg : Str)
  | fetchFailed (status : Int)
deriving DecidableEq

/-- Parse one line of ref-source output, as in the closure inside
`remote_list` in `src/main.rs`: the ref name is everything after the
first colon; a line without a colon is a hard error. -/
def parseRemoteLine (v : Str) : Except Err Str :=
  match splitOnce ':' v with
  | none => .error (.collaboratorError ("Invalid remote line: ".data ++ v))
  | some nb => .ok nb.2

/-- Rust `collect::<Result<Vec<_>>>` over the parsed lines: stop at the
first failing line, otherwise gather the parsed names in order. -/
def collectRefs : List Str → Except Err (List Str)
  | [] => .ok []
  | v :: rest =>
    match parseRemoteLine v with
    | .error e => .error e
    | .ok name =>
      match collectRefs rest with
      | .error e => .error e
      | .ok names => .ok (name :: names)

/-- `remote_list` from `src/main.rs`, applied to the observed outcome of
the ref-source command: fail on a non-success status or on output that
is not decodable as text; otherwise split the text into lines and parse
each line at its first colon. -/
def remote_list (out : ProcOutput) : Except Err (List Str) :=
  if !out.success then
    .error (.collaboratorError ("failed to run ostree remote list".data))
  else
    match out.stdout with
    | none => .error (.collaboratorError ("stdout not decodable as text".data))
    | some o => collectRefs (rustLines o)

/-- Observable events of the fetch orchestrator: the status report
printed after matching (total refs considered and the matched list, in
order), and each invocation of the fetch-sink pull on a ref. -/
inductive Event where
  | report (total : Nat) (targets : List Str)
  | pull (ref : Str)
deriving DecidableEq

/-- The pull loop of `Opt::fetch` in `src/main.rs`: invoke the
fetch-sink on each target in order; `pullStatus i r` is the exit status
reported by the `i`-th pull, which is of ref `r`, with `0` meaning
success.  Returns the pull events that happened and the loop result,
bailing out with `fetchFailed` at the first non-success status. -/
def runPulls (pullStatus : Nat → Str → Int) : Nat → List Str → List Event × Except Err Unit
  | _, [] => ([], .ok ())
  | i, r :: rest =>
    let status := pullStatus i r
    if status = 0 then
      let next := runPulls pullStatus (i + 1) rest
      (.pull r :: next.1, next.2)
    else
      ([.pull r], .error (.fetchFailed status))

/-- `Opt::fetch` from `src/main.rs`: list the remote refs, propagating
any collaborator failure; glob-match them; report the considered count
and the matched list; then pull each matched ref in order, failing fast
on the first non-success status.  Returns the emitted events in order
together with the overall result. -/
def fetch (out : ProcOutput) (pullStatus : Nat → Str → Int) (refglob : Str) :
    List Event × Except Err Unit :=
  match remote_list out with
  | .error e => ([], .error e)
  | .ok all_refs =>
    let targets := glob_match_refs all_refs refglob
    let next := runPulls pullStatus 0 targets
    (.report all_refs.length targets :: next.1, next.2)

/-! ### Helper lemmas about segment splitting and matching -/

theorem splitChar_ne_nil (sep : Char) (s : Str) : splitChar sep s ≠ [] := by
  induction s with
  | nil => simp [splitChar]
  | cons c rest ih =>
    unfold splitChar
    by_cases h : c = sep
    · simp [h]
    · simp only [if_neg h]
      cases hr : splitChar sep rest with
      | nil => simp
      | cons s ss => simp

theorem joinSeg_splitChar (sep : Char) (s : Str) : joinSeg sep (splitChar sep s) = s := by
  induction s with
  | nil => rfl
  | cons c rest ih =>
    unfold splitChar
    by_cases h : c = sep
    · simp only [if_pos h]
      cases hr : splitChar sep rest with
      | nil => exact absurd hr (splitChar_ne_nil sep rest)
      | cons a ss =>
        rw [hr] at ih
        simp [joinSeg, ih, h]
    · simp only [if_neg h]
      cases hr : splitChar sep rest with
      | nil => exact absurd hr (splitChar_ne_nil sep rest)
      | cons a ss =>
        rw [hr] at ih
        cases ss with
        | nil =>
          simp [joinSeg] at ih ⊢
          simp [ih]
        | cons b ss2 =>
          simp [joinSeg] at ih ⊢
          simp [ih]

theorem splitChar_inj {sep : Char} {a b : Str} (h : splitChar sep a = splitChar sep b) :
    a = b := by
  have ha := joinSeg_splitChar sep a
  have hb := joinSeg_splitChar sep b
  rw [← ha, ← hb, h]

theorem ref_matches_iff (parts : List Str) (v : Str) :
    ref_matches parts v = true ↔
      (splitChar '/' v).length = parts.length ∧
      ∀ (i : Nat) (hp : i < parts.length) (hv : i < (splitChar '/' v).length),
        parts.get ⟨i, hp⟩ = ['*'] ∨ (splitChar '/' v).get ⟨i, hv⟩ = parts.get ⟨i, hp⟩ := by
  unfold ref_matches
  simp only [Bool.and_eq_true, beq_iff_eq, List.all_eq_true]
  constructor
  · rintro ⟨hlen, hall⟩
    refine ⟨hlen.symm, ?_⟩
    intro i hp hv
    have hz : i < ((splitChar '/' v).zip parts).length := by
      rw [List.length_zip]; omega
    have hmem := List.get_mem ((splitChar '/' v).zip parts) i hz
    have h2 := hall _ hmem
    rw [List.get_eq_getElem, List.getElem_zip] at h2
    simp only [Bool.or_eq_true, beq_iff_eq] at h2
    rw [List.get_eq_getElem, List.get_eq_getElem]
    exact h2
  · rintro ⟨hlen, h⟩
    refine ⟨hlen.symm, ?_⟩
    intro x hx
    rw [List.mem_iff_getElem] at hx
    obtain ⟨i, hi, rfl⟩ := hx
    have hp : i < parts.length := by rw [List.length_zip] at hi; omega
    have hv : i < (splitChar '/' v).length := by rw [List.length_zip] at hi; omega
    rw [List.getElem_zip]
    simp only [Bool.or_eq_true, beq_iff_eq]
    have h2 := h i hp hv
    rw [List.get_eq_getElem, List.get_eq_getElem] at h2
    exact h2

/-! ### Claims about the glob matcher -/

/-- C1: a candidate ref is in the glob matcher's result iff it occurs in
the input list, its number of `/`-separated segments equals the
pattern's, and at every position the pattern segment is exactly the
one-character wildcard `*` or equals the candidate's segment there. -/
theorem glob_match_refs_mem_iff (refs : List Str) (g r : Str) :
    r ∈ glob_match_refs refs g ↔
      r ∈ refs ∧
      (splitChar '/' r).length = (splitChar '/' g).length ∧
      ∀ (i : Nat) (hg : i < (splitChar '/' g).length) (hr : i < (splitChar '/' r).length),
        (splitChar '/' g).get ⟨i, hg⟩ = ['*'] ∨
          (splitChar '/' r).get ⟨i, hr⟩ = (splitChar '/' g).get ⟨i, hg⟩ := by
  unfold glob_match_refs
  rw [List.mem_filter, ref_matches_iff]

/-- C4: the matcher's result is a subsequence of the input (so relative
order is preserved), and occurrences are kept independently: every ref
has in the result the same multiplicity as in the input when it matches
the pattern, and multiplicity zero otherwise. -/
theorem glob_match_refs_sublist_count (refs : List Str) (g : Str) :
    (glob_match_refs refs g).Sublist refs ∧
      ∀ r : Str, (glob_match_refs refs g).count r =
        if ref_matches (splitChar '/' g) r = true then refs.count r else 0 := by
  unfold glob_match_refs
  refine ⟨List.filter_sublist refs, ?_⟩
  intro r
  by_cases h : ref_matches (splitChar '/' g) r = true
  · rw [if_pos h]
    exact List.count_filter h
  · rw [if_neg h]
    rw [List.count_eq_zero]
    intro hmem
    rw [List.mem_filter] at hmem
    exact h hmem.2

/-- C8: the glob matcher is idempotent: matching its own output against
the same pattern returns that output unchanged. -/
theorem glob_match_refs_idem (refs : List Str) (g : Str) :
    glob_match_refs (glob_match_refs refs g) g = glob_match_refs refs g := by
  unfold glob_match_refs
  rw [List.filter_filter]
  exact List.filter_congr fun x _ => Bool.and_self _

/-- C9: the glob matcher distributes over concatenation of candidate
lists; each candidate's inclusion depends only on itself and the
pattern. -/
theorem glob_match_refs_append (xs ys : List Str) (g : Str) :
    glob_match_refs (xs ++ ys) g = glob_match_refs xs g ++ glob_match_refs ys g := by
  unfold glob_match_refs
  exact List.filter_append xs ys

/-- C10: no well-formedness is required of refs or patterns: the empty
ref name (one empty segment) is matched by the pattern `*` and by the
empty pattern, and the pattern `a//b`, whose middle segment is empty,
matches exactly the ref `a//b`. -/
theorem glob_match_refs_degenerate :
    glob_match_refs [([] : Str)] ("*".data) = [[]] ∧
      glob_match_refs [([] : Str)] ([] : Str) = [[]] ∧
      ∀ r : Str, glob_match_refs [r] ("a//b".data) = [r] ↔ r = "a//b".data := by
  refine ⟨by decide, by decide, ?_⟩
  intro r
  constructor
  · intro h
    have hm : ref_matches (splitChar '/' ("a//b".data)) r = true := by
      by_contra hc
      rw [Bool.not_eq_true] at hc
      unfold glob_match_refs at h
      simp [List.filter_cons, hc] at h
    rw [ref_matches_iff] at hm
    obtain ⟨hlen, hpos⟩ := hm
    have hparts : splitChar '/' ("a//b".data) = [['a'], [], ['b']] := by decide
    rw [hparts] at hlen hpos
    have heq : splitChar '/' r = [['a'], [], ['b']] := by
      apply List.ext_getElem
      · rw [hlen]
      · intro i h1 h2
        have h3 : i < 3 := by simpa using h2
        have hcase := hpos i (by simpa using h3) h1
        rw [List.get_eq_getElem, List.get_eq_getElem] at hcase
        rcases hcase with hstar | heqi
        · exfalso
          interval_cases i <;> simp_all
        · exact heqi
    have heq2 : splitChar '/' r = splitChar '/' ("a//b".data) := by rw [heq, hparts]
    exact splitChar_inj heq2
  · rintro rfl
    decide

/-! ### Helper lemmas about the ref-listing parse -/

theorem splitOnce_of_not_mem (sep : Char) (v : Str) (h : sep ∉ v) :
    splitOnce sep v = none := by
  induction v with
  | nil => rfl
  | cons c rest ih =>
    rw [List.mem_cons] at h
    push_neg at h
    unfold splitOnce
    rw [if_neg (fun hc => h.1 hc.symm)]
    rw [ih h.2]

theorem splitOnce_of_mem (sep : Char) (v : Str) (h : sep ∈ v) :
    ∃ a, splitOnce sep v = some (a, afterFirst sep v) := by
  induction v with
  | nil => cases h
  | cons c rest ih =>
    unfold splitOnce afterFirst
    by_cases hc : c = sep
    · rw [if_pos hc, if_pos hc]
      exact ⟨[], rfl⟩
    · rw [if_neg hc, if_neg hc]
      have hr : sep ∈ rest := by
        rcases List.mem_cons.mp h with h1 | h1
        · exact absurd h1.symm hc
        · exact h1
      obtain ⟨a, ha⟩ := ih hr
      rw [ha]
      exact ⟨c :: a, rfl⟩

theorem parseRemoteLine_ok (v : Str) (h : (':' : Char) ∈ v) :
    parseRemoteLine v = .ok (afterFirst ':' v) := by
  obtain ⟨a, ha⟩ := splitOnce_of_mem ':' v h
  unfold parseRemoteLine
  rw [ha]

theorem parseRemoteLine_error (v : Str) (h : (':' : Char) ∉ v) :
    parseRemoteLine v = .error (.collaboratorError ("Invalid remote line: ".data ++ v)) := by
  unfold parseRemoteLine
  rw [splitOnce_of_not_mem ':' v h]

theorem parseRemoteLine_error_shape (v : Str) (e : Err)
    (h : parseRemoteLine v = .error e) : ∃ msg, e = .collaboratorError msg := by
  unfold parseRemoteLine at h
  cases hs : splitOnce ':' v with
  | none =>
    rw [hs] at h
    injection h with h2
    exact ⟨_, h2.symm⟩
  | some ab =>
    rw [hs] at h
    cases h

theorem collectRefs_ok (ls : List Str) (h : ∀ l ∈ ls, (':' : Char) ∈ l) :
    collectRefs ls = .ok (ls.map (afterFirst ':')) := by
  induction ls with
  | nil => rfl
  | cons v rest ih =>
    unfold collectRefs
    rw [parseRemoteLine_ok v (h v (List.mem_cons_self v rest))]
    rw [ih (fun l hl => h l (List.mem_cons_of_mem v hl))]
    rfl

theorem collectRefs_error (ls : List Str) (h : ∃ l ∈ ls, (':' : Char) ∉ l) :
    ∃ msg, collectRefs ls = .error (.collaboratorError msg) := by
  induction ls with
  | nil =>
    obtain ⟨l, hl, _⟩ := h
    cases hl
  | cons v rest ih =>
    unfold collectRefs
    by_cases hv : (':' : Char) ∈ v
    · rw [parseRemoteLine_ok v hv]
      have hr : ∃ l ∈ rest, (':' : Char) ∉ l := by
        obtain ⟨l, hl, hnl⟩ := h
        rcases List.mem_cons.mp hl with rfl | hl2
        · exact absurd hv hnl
        · exact ⟨l, hl2, hnl⟩
      obtain ⟨msg, hm⟩ := ih hr
      rw [hm]
      exact ⟨msg, rfl⟩
    · rw [parseRemoteLine_error v hv]
      exact ⟨_, rfl⟩

theorem collectRefs_error_shape (ls : List Str) (e : Err)
    (h : collectRefs ls = .error e) : ∃ msg, e = .collaboratorError msg := by
  induction ls with
  | nil => cases h
  | cons v rest ih =>
    unfold collectRefs at h
    cases hp : parseRemoteLine v with
    | error e2 =>
      rw [hp] at h
      injection h with h2
      subst h2
      exact parseRemoteLine_error_shape v _ hp
    | ok name =>
      rw [hp] at h
      cases hc : collectRefs rest with
      | error e2 =>
        rw [hc] at h
        injection h with h2
        subst h2
        exact ih hc
      | ok names =>
        rw [hc] at h
        cases h

theorem remote_list_error_collab (out : ProcOutput) (e : Err)
    (h : remote_list out = .error e) : ∃ msg, e = .collaboratorError msg := by
  unfold remote_list at h
  cases hs : out.success with
  | false =>
    rw [hs] at h
    simp only [Bool.not_false, if_true] at h
    injection h with h2
    exact ⟨_, h2.symm⟩
  | true =>
    rw [hs] at h
    simp only [Bool.not_true, Bool.false_eq_true, if_false] at h
    cases hst : out.stdout with
    | none =>
      rw [hst] at h
      injection h with h2
      exact ⟨_, h2.symm⟩
    | some o =>
      rw [hst] at h
      exact collectRefs_error_shape _ e h

/-! ### Claims about the ref-listing parse -/

/-- C3: the parse of a textual ref-source response fails (with a
collaborator error) when some line has no colon; when every line has
one it returns, in line order, the part of each line after its first
colon, the prefix before it discarded; the empty response parses to the
empty list. -/
theorem remote_list_parse_charact (o : Str) :
    ((∃ l ∈ rustLines o, (':' : Char) ∉ l) →
        ∃ msg, remote_list ⟨true, some o⟩ = .error (.collaboratorError msg)) ∧
      ((∀ l ∈ rustLines o, (':' : Char) ∈ l) →
        remote_list ⟨true, some o⟩ = .ok ((rustLines o).map (afterFirst ':'))) ∧
      remote_list ⟨true, some ([] : Str)⟩ = .ok [] := by
  refine ⟨?_, ?_, rfl⟩
  · intro h
    obtain ⟨msg, hm⟩ := collectRefs_error (rustLines o) h
    exact ⟨msg, hm⟩
  · intro h
    exact collectRefs_ok (rustLines o) h

/-- C3 witness: a concrete well-formed two-line response parses to the
two ref names, and a concrete response with a colon-free line fails. -/
theorem remote_list_parse_charact_witness :
    remote_list ⟨true, some ("fedora:a/b\nfedora:x:y\n".data)⟩ =
        .ok ["a/b".data, "x:y".data] ∧
      ∃ msg, remote_list ⟨true, some ("fedora:a/b\nbad".data)⟩ =
        .error (.collaboratorError msg) := by
  constructor
  · have h := (remote_list_parse_charact ("fedora:a/b\nfedora:x:y\n".data)).2.1 (by decide)
    rw [h]
    rfl
  · exact (remote_list_parse_charact ("fedora:a/b\nbad".data)).1 (by decide)

/-! ### Helper lemmas about the pull loop -/

theorem runPulls_nil (pullStatus : Nat → Str → Int) (i : Nat) :
    runPulls pullStatus i [] = ([], .ok ()) := rfl

theorem runPulls_events (pullStatus : Nat → Str → Int) :
    ∀ (i : Nat) (ts : List Str), ∀ e ∈ (runPulls pullStatus i ts).1, ∃ r, e = Event.pull r := by
  intro i ts
  induction ts generalizing i with
  | nil => intro e he; cases he
  | cons r rest ih =>
    intro e he
    simp only [runPulls] at he
    by_cases h : pullStatus i r = 0
    · rw [if_pos h] at he
      rcases List.mem_cons.mp he with rfl | he2
      · exact ⟨r, rfl⟩
      · exact ih (i + 1) e he2
    · rw [if_neg h] at he
      rcases List.mem_cons.mp he with rfl | he2
      · exact ⟨r, rfl⟩
      · cases he2

theorem runPulls_fail (pullStatus : Nat → Str → Int) (ts : List Str) :
    ∀ (i k : Nat) (hk : k < ts.length),
      (∀ (j : Nat) (hj : j < k), pullStatus (i + j) (ts.get ⟨j, Nat.lt_trans hj hk⟩) = 0) →
      pullStatus (i + k) (ts.get ⟨k, hk⟩) ≠ 0 →
      runPulls pullStatus i ts =
        ((ts.take (k + 1)).map Event.pull,
          .error (.fetchFailed (pullStatus (i + k) (ts.get ⟨k, hk⟩)))) := by
  induction ts with
  | nil =>
    intro i k hk
    exact absurd hk (Nat.not_lt_zero k)
  | cons r rest ih =>
    intro i k hk hprev hfail
    cases k with
    | zero =>
      have hf : pullStatus i r ≠ 0 := by simpa using hfail
      simp only [runPulls]
      rw [if_neg hf]
      simp
    | succ k2 =>
      have h0 : pullStatus i r = 0 := by simpa using hprev 0 (Nat.succ_pos k2)
      have hk2 : k2 < rest.length := Nat.lt_of_succ_lt_succ hk
      have hprev2 : ∀ (j : Nat) (hj : j < k2),
          pullStatus ((i + 1) + j) (rest.get ⟨j, Nat.lt_trans hj hk2⟩) = 0 := by
        intro j hj
        have h2 := hprev (j + 1) (Nat.succ_lt_succ hj)
        have harith : i + (j + 1) = (i + 1) + j := by omega
        simp only [List.get_eq_getElem, List.getElem_cons_succ] at h2
        rw [harith] at h2
        simp only [List.get_eq_getElem]
        exact h2
      have hfail2 : pullStatus ((i + 1) + k2) (rest.get ⟨k2, hk2⟩) ≠ 0 := by
        have h2 := hfail
        have harith : i + (k2 + 1) = (i + 1) + k2 := by omega
        simp only [List.get_eq_getElem, List.getElem_cons_succ] at h2
        rw [harith] at h2
        simp only [List.get_eq_getElem]
        exact h2
      have ihh := ih (i + 1) k2 hk2 hprev2 hfail2
      simp only [runPulls]
      rw [if_pos h0, ihh]
      have harith : i + (k2 + 1) = (i + 1) + k2 := by omega
      simp only [List.take_succ_cons, List.map_cons, List.get_eq_getElem,
        List.getElem_cons_succ, harith]

/-! ### Claims about the fetch orchestrator -/

/-- C2: when the ref listing succeeds and, among the matched refs, the
pull at position k reports a failing status while all earlier pulls
succeeded, the orchestrator's trace is exactly the report followed by
the first k+1 pull invocations (so the refs after the failing one are
never pulled, and nothing undoes the completed ones), and the result is
a `fetchFailed` error carrying the reported status. -/
theorem fetch_fail_fast (out : ProcOutput) (pullStatus : Nat → Str → Int)
    (g : Str) (allr : List Str) (k : Nat)
    (hlist : remote_list out = .ok allr)
    (hk : k < (glob_match_refs allr g).length)
    (hprev : ∀ (j : Nat) (hj : j < k),
      pullStatus j ((glob_match_refs allr g).get ⟨j, Nat.lt_trans hj hk⟩) = 0)
    (hfail : pullStatus k ((glob_match_refs allr g).get ⟨k, hk⟩) ≠ 0) :
    fetch out pullStatus g =
      (Event.report allr.length (glob_match_refs allr g) ::
          ((glob_match_refs allr g).take (k + 1)).map Event.pull,
        .error (.fetchFailed (pullStatus k ((glob_match_refs allr g).get ⟨k, hk⟩)))) := by
  have hprev0 : ∀ (j : Nat) (hj : j < k),
      pullStatus (0 + j) ((glob_match_refs allr g).get ⟨j, Nat.lt_trans hj hk⟩) = 0 := by
    intro j hj
    simpa [Nat.zero_add] using hprev j hj
  have hfail0 : pullStatus (0 + k) ((glob_match_refs allr g).get ⟨k, hk⟩) ≠ 0 := by
    simpa [Nat.zero_add] using hfail
  have h := runPulls_fail pullStatus (glob_match_refs allr g) 0 k hk hprev0 hfail0
  unfold fetch
  rw [hlist]
  simp only [h, Nat.zero_add]

/-- C2 witness: with three advertised refs all matching `*`, a sink
whose second pull fails with status 1 yields exactly the report, the
two pull invocations, and a `fetchFailed 1` result. -/
theorem fetch_fail_fast_witness :
    fetch ⟨true, some ("o:r1\no:r2\no:r3".data)⟩
        (fun i _ => if i = 0 then 0 else 1) ("*".data) =
      (Event.report 3 ["r1".data, "r2".data, "r3".data] ::
          [Event.pull ("r1".data), Event.pull ("r2".data)],
        .error (.fetchFailed 1)) := by
  have h := fetch_fail_fast ⟨true, some ("o:r1\no:r2\no:r3".data)⟩
      (fun i _ => if i = 0 then 0 else 1) ("*".data)
      ["r1".data, "r2".data, "r3".data] 1 rfl (by decide)
      (by
        intro j hj
        have hj0 : j = 0 := by omega
        subst hj0
        rfl)
      (by decide)
  rw [h]
  rfl

/-- C5: whenever the ref-source query fails, the orchestrator surfaces
that failure — which is always a collaborator error — and returns at
once: the event trace is empty, so the fetch-sink is never invoked. -/
theorem fetch_collaborator_error (out : ProcOutput) (pullStatus : Nat → Str → Int)
    (g : Str) (e : Err) (h : remote_list out = .error e) :
    fetch out pullStatus g = ([], .error e) ∧ ∃ msg, e = .collaboratorError msg := by
  refine ⟨?_, remote_list_error_collab out e h⟩
  unfold fetch
  rw [h]

/-- C5 witness: a failing ref-source status makes the orchestrator
return the collaborator error with an empty event trace. -/
theorem fetch_collaborator_error_witness :
    fetch ⟨false, none⟩ (fun _ _ => 0) ([] : Str) =
        ([], .error (.collaboratorError ("failed to run ostree remote list".data))) ∧
      ∃ msg, (Err.collaboratorError ("failed to run ostree remote list".data)) =
        .collaboratorError msg :=
  fetch_collaborator_error ⟨false, none⟩ (fun _ _ => 0) []
    (.collaboratorError ("failed to run ostree remote list".data)) rfl

/-- C6: when the matcher selects nothing, the orchestrator succeeds
without invoking the fetch-sink, having emitted its report with zero
matches. -/
theorem fetch_empty_match (out : ProcOutput) (pullStatus : Nat → Str → Int)
    (g : Str) (allr : List Str) (hlist : remote_list out = .ok allr)
    (hempty : glob_match_refs allr g = []) :
    fetch out pullStatus g = ([Event.report allr.length []], .ok ()) := by
  unfold fetch
  rw [hlist]
  simp only [hempty, runPulls_nil]

/-- C6 witness: one advertised ref and a pattern of a different segment
count give an empty match and a successful no-op fetch. -/
theorem fetch_empty_match_witness :
    fetch ⟨true, some ("o:r1".data)⟩ (fun _ _ => 0) ("a/*".data) =
      ([Event.report 1 []], .ok ()) :=
  fetch_empty_match ⟨true, some ("o:r1".data)⟩ (fun _ _ => 0) ("a/*".data)
    ["r1".data] rfl (by decide)

/-- C7: on every run where the ref listing succeeds, the first emitted
event is the status report carrying the total ref count and the ordered
matched list, and every later event is a fetch-sink pull — so the
report precedes any pull attempt. -/
theorem fetch_report_first (out : ProcOutput) (pullStatus : Nat → Str → Int)
    (g : Str) (allr : List Str) (hlist : remote_list out = .ok allr) :
    ∃ evs res, fetch out pullStatus g =
        (Event.report allr.length (glob_match_refs allr g) :: evs, res) ∧
      ∀ e ∈ evs, ∃ r, e = Event.pull r := by
  refine ⟨(runPulls pullStatus 0 (glob_match_refs allr g)).1,
    (runPulls pullStatus 0 (glob_match_refs allr g)).2, ?_, ?_⟩
  · unfold fetch
    rw [hlist]
  · exact runPulls_events pullStatus 0 (glob_match_refs allr g)

/-- C7 witness: with one advertised and matched ref, the report with
count one opens the trace and the rest are pull events. -/
theorem fetch_report_first_witness :
    remote_list ⟨true, some ("o:r1".data)⟩ = .ok ["r1".data] ∧
      ∃ evs res, fetch ⟨true, some ("o:r1".data)⟩ (fun _ _ => 0) ("*".data) =
          (Event.report (["r1".data] : List Str).length
            (glob_match_refs ["r1".data] ("*".data)) :: evs, res) ∧
        ∀ e ∈ evs, ∃ r, e = Event.pull r :=
  ⟨rfl, fetch_report_first ⟨true, some ("o:r1".data)⟩ (fun _ _ => 0) ("*".data)
    ["r1".data] rfl⟩

/-- C1 witness: the spec's own example ref matches the pattern with a
wildcard third segment, by the segment-wise characterisation. -/
theorem glob_match_refs_mem_iff_witness :
    ("fedora/36/x86_64/silverblue".data) ∈
      glob_match_refs ["fedora/36/x86_64/silverblue".data,
        "fedora/36/x86_64/testing/silverblue".data] ("fedora/36/*/silverblue".data) := by
  rw [glob_match_refs_mem_iff]
  refine ⟨by decide, by decide, ?_⟩
  intro i hg hr
  have h4 : (splitChar '/' ("fedora/36/*/silverblue".data)).length = 4 := by decide
  rw [h4] at hg
  interval_cases i
  · exact Or.inr rfl
  · exact Or.inr rfl
  · exact Or.inl rfl
  · exact Or.inr rfl
